import Mathlib

/-!
Shallow embedding of the substring-search library (search.c) and the
line-scan driver (mygrep.c) of the practical-string-searching repository.

Byte buffers are modelled as `List Nat`; a byte value is a `Nat` (the C
programs only ever hold values 0..255 in a byte, so theorems about the
casts `(unsigned char)c`, written here as `% 256`, carry a `< 256`
hypothesis where the cast matters).  NUL-terminated strings are modelled
as the underlying buffer: reading position `i` of a C string is
`List.getD i 0`, so positions past the list are the terminator, and an
embedded `0` in the list is a terminator exactly as in C.

Loops whose termination is not structural use explicit fuel; such a
function returns `Option r`, where `none` means the fuel ran out (the
loop did not terminate within the bound) and `some r` is the value the C
function returns.  `searchRabinKarp` additionally distinguishes an
out-of-bounds haystack read, via `CResult.oob`: every read of the
haystack buffer in it goes through `List.get?`, and the out-of-range
branch is reported instead of producing a value.

Unsigned 32-bit arithmetic (`unsigned int`) is `Nat` arithmetic modulo
`2 ^ 32`.
-/

/-- Result of a C search routine whose haystack reads are instrumented:
`ret r` is a normal return (`r = none` is NULL / not found), `oob` means
the routine read a haystack index outside `[0, haystackLength)`. -/
inductive CResult where
  | ret : Option Nat → CResult
  | oob : CResult
deriving DecidableEq

/-- Bytes of a C string up to (excluding) the first NUL byte. -/
def cstr (s : List Nat) : List Nat := s.takeWhile (fun b => b != 0)

/-- Value of `strlen` on the buffer `s`. -/
def cstrlen (s : List Nat) : Nat := (cstr s).length

/-- The needle occurs in the haystack at offset `i`. -/
def occursAt (h n : List Nat) (i : Nat) : Prop :=
  i + n.length ≤ h.length ∧ (h.drop i).take n.length = n

instance (h n : List Nat) (i : Nat) : Decidable (occursAt h n i) := by
  unfold occursAt; infer_instance

/-- First offset `≥ s` (among the next `cnt` offsets) at which the needle
occurs, the declarative reference for "first occurrence". -/
def firstOccFrom (h n : List Nat) (s : Nat) : Nat → Option Nat
  | 0 => none
  | cnt + 1 => if occursAt h n s then some s else firstOccFrom h n (s + 1) cnt

/-- First occurrence of the needle in the haystack, declaratively. -/
def firstOcc (h n : List Nat) : Option Nat :=
  firstOccFrom h n 0 (h.length + 1)

/-! ## searchSimple (search.c lines 51-82) -/

/-- Inner comparison loop of `searchSimple`: compares `cnt` bytes of the
window at `s` against the needle, starting at needle position `i`. -/
def simpleCmp (h n : List Nat) (s : Nat) : Nat → Nat → Bool
  | _, 0 => true
  | i, cnt + 1 => (h.getD (s + i) 0 == n.getD i 0) && simpleCmp h n s (i + 1) cnt

/-- Outer loop of `searchSimple` over the `cnt` remaining start offsets. -/
def simpleLoop (h n : List Nat) : Nat → Nat → Option Nat
  | _, 0 => none
  | s, cnt + 1 =>
    if simpleCmp h n s 0 n.length then some s else simpleLoop h n (s + 1) cnt

/-- Naive search, length-based (`searchSimple`).  The C code computes
`haystackLength - (needleLength - 1)` start positions in `size_t`
arithmetic; for an empty needle that wraps to `haystackLength + 1`,
which the expression below reproduces exactly. -/
def searchSimple (h n : List Nat) : Option Nat :=
  if h.length < n.length then none
  else simpleLoop h n 0 (h.length - n.length + 1)

/-! ## searchSimpleString (search.c lines 19-47) -/

/-- Inner loop of `searchSimpleString`: does the C string `ns` (read up
to its terminator) match the front of the buffer `hs`?  Reads past the
end of `hs` yield the terminator byte 0, as in C. -/
def cstrMatch : List Nat → List Nat → Bool
  | _, [] => true
  | hs, nb :: ntl =>
    if nb = 0 then true
    else if hs.headD 0 = nb then cstrMatch hs.tail ntl else false

/-- Outer loop of `searchSimpleString`, walking the haystack until its
terminator. -/
def searchSimpleStringAux : List Nat → List Nat → Nat → Option Nat
  | [], _, _ => none
  | b :: rest, n, pos =>
    if b = 0 then none
    else if cstrMatch (b :: rest) n then some pos
    else searchSimpleStringAux rest n (pos + 1)

/-- Naive search, NUL-terminated variant (`searchSimpleString`). -/
def searchSimpleString (h n : List Nat) : Option Nat :=
  searchSimpleStringAux h n 0

/-! ## memchr and searchNative (search.c lines 515-557) -/

/-- `memchr` over the buffer `l` restricted to `len` bytes: offset of the
first byte equal to `c` (as unsigned char).  Callers always pass
`len ≤ l.length`, so the `[]`-with-fuel-left case is never reached. -/
def memchrAux : List Nat → Nat → Nat → Option Nat
  | _, _, 0 => none
  | [], _, _ + 1 => none
  | b :: rest, c, len + 1 =>
    if b % 256 = c % 256 then some 0 else (memchrAux rest c len).map (· + 1)

/-- Candidate loop of `searchNative`: `q` is the index the next `memchr`
starts from, `len` its byte budget, `endIdx` the index one past the last
legal start (`haystackEnd`).  Fuel-driven; each iteration advances past
the failed candidate. -/
def searchNativeLoop (h n : List Nat) (m endIdx : Nat) : Nat → Nat → Nat → Option (Option Nat)
  | _, _, 0 => none
  | q, len, fuel + 1 =>
    match memchrAux (h.drop q) (n.getD 0 0) len with
    | none => some none
    | some d =>
      let cand := q + d
      if h.getD (cand + (m - 1)) 0 == n.getD (m - 1) 0 &&
          (m == 2 || (h.drop (cand + 1)).take (m - 2) == (n.drop 1).take (m - 2)) then
        some (some cand)
      else
        let len2 := endIdx - cand
        if len2 = 0 then some none
        else searchNativeLoop h n m endIdx (cand + 1) (len2 - 1) fuel

/-- `searchNative`: memchr for the first byte, check last byte, then
`memcmp` the interior. -/
def searchNative (h n : List Nat) : Option (Option Nat) :=
  if h.length < n.length then some none
  else if n.length = 0 then some (some 0)
  else if n.length = 1 then some (memchrAux h (n.getD 0 0) h.length)
  else
    searchNativeLoop h n n.length (h.length - (n.length - 1))
      0 (h.length - (n.length - 1)) (h.length + 2)

/-! ## Knuth-Morris-Pratt (search.c lines 89-216) -/

/-- Pointwise update of the failure table (an `int` array modelled as a
total function). -/
def updI (t : Nat → Int) (k : Nat) (v : Int) : Nat → Int :=
  fun x => if x = k then v else t x

/-- Inner `while` of the KMP preprocessing for position `i`: repeatedly
rewrites `skip[i+1]` while it is positive and the characters mismatch.
Fuel-driven; `none` means the fuel ran out. -/
def kmpInner (n : List Nat) (i : Nat) : (Nat → Int) → Nat → Option (Nat → Int)
  | _, 0 => none
  | t, fuel + 1 =>
    if t (i + 1) > 0 ∧ n.getD i 0 ≠ n.getD ((t (i + 1)) - 1).toNat 0 then
      kmpInner n i (updI t (i + 1) (t ((t (i + 1) - 1).toNat) + 1)) fuel
    else some t

/-- Outer preprocessing loop of KMP over positions `i, i+1, ...` (`cnt`
of them).  Alongside the table it accumulates the list of table indices
written to; the inner `while` only ever rewrites the index `i + 1`
already recorded. -/
def kmpBuildAux (n : List Nat) : Nat → (Nat → Int) → List Nat → Nat → Option ((Nat → Int) × List Nat)
  | _, t, ws, 0 => some (t, ws)
  | i, t, ws, cnt + 1 =>
    match kmpInner n i (updI t (i + 1) (t i + 1)) (i + 2) with
    | none => none
    | some t2 => kmpBuildAux n (i + 1) t2 (ws ++ [i + 1]) cnt

/-- KMP preprocessing: builds the failure table for a needle of length
`n.length` and returns it together with the list of written indices.
The underlying C array is uninitialised; unwritten entries are 0 here. -/
def kmpBuildSkip (n : List Nat) : Option ((Nat → Int) × List Nat) :=
  kmpBuildAux n 0 (updI (fun _ => 0) 0 (-1)) [0] n.length

/-- Indices of the failure table written during KMP preprocessing. -/
def kmpSkipWrites (n : List Nat) : Option (List Nat) :=
  (kmpBuildSkip n).map Prod.snd

/-- Number of `int` entries actually allocated for the KMP failure table
of a needle of length `m`: the 256-entry local buffer when `m ≤ 256`,
otherwise a heap block of `m` ints. -/
def kmpTableCapacity (m : Nat) : Nat := if m ≤ 256 then 256 else m

/-- Inner `while` of the KMP scan: follows the failure links while the
current haystack byte `b` mismatches `needle[shift]`. -/
def kmpScanInner (skip : Nat → Int) (n : List Nat) (b : Nat) : Int → Nat → Option Int
  | _, 0 => none
  | shift, fuel + 1 =>
    if shift ≥ 0 ∧ b ≠ n.getD shift.toNat 0 then
      kmpScanInner skip n b (skip shift.toNat) fuel
    else some shift

/-- Scan loop of the length-based KMP: walks the haystack once; `j` is
the index of the current byte. -/
def kmpScan (skip : Nat → Int) (n : List Nat) (m : Nat) : List Nat → Int → Nat → Option (Option Nat)
  | [], _, _ => some none
  | b :: rest, shift, j =>
    match kmpScanInner skip n b shift (m + 2) with
    | none => none
    | some s1 =>
      let s2 := s1 + 1
      if s2 = (m : Int) then some (some ((j + 1) - s2.toNat))
      else kmpScan skip n m rest s2 (j + 1)

/-- Knuth-Morris-Pratt, length-based (`searchKnuthMorrisPratt`).  A
failed `malloc` (which the C code turns into NULL) is not modelled. -/
def searchKnuthMorrisPratt (h n : List Nat) : Option (Option Nat) :=
  if h.length < n.length then some none
  else if n.length = 0 then some (some 0)
  else
    match kmpBuildSkip n with
    | none => none
    | some (skip, _) => kmpScan skip n n.length h 0 0

/-- Scan loop of the NUL-terminated KMP: walks the haystack until its
terminator; the hit test is `!needle[shift]`. -/
def kmpStringScan (skip : Nat → Int) (n : List Nat) : List Nat → Int → Nat → Option (Option Nat)
  | [], _, _ => some none
  | b :: rest, shift, j =>
    if b = 0 then some none
    else
      match kmpScanInner skip n b shift (cstrlen n + 2) with
      | none => none
      | some s1 =>
        let s2 := s1 + 1
        if n.getD s2.toNat 0 = 0 then some (some ((j + 1) - s2.toNat))
        else kmpStringScan skip n rest s2 (j + 1)

/-- Knuth-Morris-Pratt, NUL-terminated variant
(`searchKnuthMorrisPrattString`). -/
def searchKnuthMorrisPrattString (h n : List Nat) : Option (Option Nat) :=
  if cstrlen n = 0 then some (some 0)
  else
    match kmpBuildSkip (cstr n) with
    | none => none
    | some (skip, _) => kmpStringScan skip n h 0 0

/-! ## Boyer-Moore-Horspool (search.c lines 223-281) -/

/-- Pointwise update of the 256-entry `size_t` skip table (modelled as a
total function on byte values). -/
def updSkip (t : Nat → Nat) (c v : Nat) : Nat → Nat :=
  fun x => if x = c then v else t x

/-- Skip-table construction loop: processes `cnt` needle positions
starting at `pos`, writing `lastPos - pos` at key
`(unsigned char) needle[pos]`. -/
def bmhSkipFrom (n : List Nat) (lastPos : Nat) : Nat → Nat → (Nat → Nat) → (Nat → Nat)
  | _, 0, t => t
  | pos, cnt + 1, t =>
    bmhSkipFrom n lastPos (pos + 1) cnt (updSkip t (n.getD pos 0 % 256) (lastPos - pos))

/-- The Horspool bad-character table: default `needleLength`, then one
write per needle position strictly before the last one. -/
def bmhSkip (n : List Nat) : Nat → Nat :=
  bmhSkipFrom n (n.length - 1) 0 (n.length - 1) (fun _ => n.length)

/-- Right-to-left window comparison of `searchBoyerMooreHorspool`,
starting at needle index `i` and walking down to 0. -/
def bmhMatchFrom (h n : List Nat) (s : Nat) : Nat → Bool
  | 0 => h.getD s 0 == n.getD 0 0
  | i + 1 =>
    (h.getD (s + (i + 1)) 0 == n.getD (i + 1) 0) && bmhMatchFrom h n s i

/-- Search loop of Boyer-Moore-Horspool: `s` is the current window
start, `len` the remaining haystack length (the C code keeps
`haystack + s` and `len` with `s + len = haystackLength`).  Fuel-driven;
`none` means the fuel ran out. -/
def bmhLoop (h n : List Nat) (skip : Nat → Nat) : Nat → Nat → Nat → Option (Option Nat)
  | _, _, 0 => none
  | s, len, fuel + 1 =>
    if len < n.length then some none
    else if bmhMatchFrom h n s (n.length - 1) then some (some s)
    else
      let k := skip (h.getD (s + (n.length - 1)) 0 % 256)
      bmhLoop h n skip (s + k) (len - k) fuel

/-- Boyer-Moore-Horspool, length-based (`searchBoyerMooreHorspool`). -/
def searchBoyerMooreHorspool (h n : List Nat) : Option (Option Nat) :=
  if h.length < n.length then some none
  else if n.length = 0 then some (some 0)
  else bmhLoop h n (bmhSkip n) 0 h.length (h.length + 1)

/-- Boyer-Moore-Horspool, NUL-terminated variant: calls the length-based
routine on the `strlen`-measured buffers. -/
def searchBoyerMooreHorspoolString (h n : List Nat) : Option (Option Nat) :=
  searchBoyerMooreHorspool (cstr h) (cstr n)

/-! ## Bitap / Baeza-Yates-Gonnet (search.c lines 288-387) -/

/-- Mask construction loop of Bitap: for the needle byte `b` at position
`i`, clear bit `i` of the mask of byte value `b` (`&= ~(1 << i)` on an
`unsigned int`). -/
def bitapMasksAux : List Nat → Nat → (Nat → Nat) → (Nat → Nat)
  | [], _, t => t
  | b :: rest, i, t =>
    bitapMasksAux rest (i + 1)
      (fun c => if c = b % 256 then t c &&& ((2 ^ 32 - 1) ^^^ (1 <<< i)) else t c)

/-- The 256 Bitap masks: all bits set except, in `masks[c]`, the bits of
the positions at which byte `c` occurs in the needle. -/
def bitapMasks (n : List Nat) : Nat → Nat :=
  bitapMasksAux n 0 (fun _ => 2 ^ 32 - 1)

/-- Scan loop of the length-based Bitap: `j` is the index of the current
haystack byte, `state` the rolling `unsigned int` state word. -/
def bitapLoop (masks : Nat → Nat) (full m : Nat) : List Nat → Nat → Nat → Option Nat
  | [], _, _ => none
  | b :: rest, state, j =>
    let st := ((state ||| masks (b % 256)) <<< 1) % 2 ^ 32
    if st &&& full = 0 then some (j + 1 - m)
    else bitapLoop masks full m rest st (j + 1)

/-- Bitap, length-based (`searchBitap`): needles longer than
`8 * sizeof(int) - 1 = 31` delegate to `searchNative`. -/
def searchBitap (h n : List Nat) : Option (Option Nat) :=
  if h.length < n.length then some none
  else if n.length = 0 then some (some 0)
  else if 31 < n.length then searchNative h n
  else some (bitapLoop (bitapMasks n) (1 <<< n.length) n.length h (2 ^ 32 - 2) 0)

/-- Scan loop of the NUL-terminated Bitap: stops at the haystack
terminator. -/
def bitapStringLoop (masks : Nat → Nat) (full m : Nat) : List Nat → Nat → Nat → Option Nat
  | [], _, _ => none
  | b :: rest, state, j =>
    if b = 0 then none
    else
      let st := ((state ||| masks (b % 256)) <<< 1) % 2 ^ 32
      if st &&& full = 0 then some (j + 1 - m)
      else bitapStringLoop masks full m rest st (j + 1)

/-- Bitap, NUL-terminated variant (`searchBitapString`): long needles
delegate to `searchSimpleString`. -/
def searchBitapString (h n : List Nat) : Option Nat :=
  if cstrlen n = 0 then some 0
  else if 31 < cstrlen n then searchSimpleString h n
  else
    bitapStringLoop (bitapMasks (cstr n)) (1 <<< cstrlen n) (cstrlen n) h (2 ^ 32 - 2) 0

/-! ## Rabin-Karp (search.c lines 395-508) -/

/-- Outcome of the initial hashing loop of the length-based Rabin-Karp,
which also contains the NUL test `if (!haystack[i]) return NULL;`. -/
inductive RKInit where
  | oobE : RKInit
  | nulE : RKInit
  | okE : Nat → Nat → RKInit

/-- Initial hashing loop of `searchRabinKarp`: sums `cnt` more needle and
haystack bytes; the haystack byte at `p + i` is read through `get?`, so
a read at or past `haystackLength` is reported as `oobE`. -/
def rkInitHash (h n : List Nat) (p : Nat) : Nat → Nat → Nat → Nat → RKInit
  | _, hN, hH, 0 => .okE hN hH
  | i, hN, hH, cnt + 1 =>
    match h.get? (p + i) with
    | none => .oobE
    | some b =>
      if b = 0 then .nulE
      else rkInitHash h n p (i + 1) ((hN + n.getD i 0 % 2 ^ 32) % 2 ^ 32)
        ((hH + b % 2 ^ 32) % 2 ^ 32) cnt

/-- Rolling loop of `searchRabinKarp`: `p` is the current window start,
`endIdx` the C `haystackEnd` index; the incoming byte `haystack[p + m]`
is read through `get?` and an out-of-range read is reported. -/
def rkRoll (h n : List Nat) (hN endIdx : Nat) : Nat → Nat → Nat → Option CResult
  | _, _, 0 => none
  | p, hH, fuel + 1 =>
    if p = endIdx then some (.ret none)
    else if hH = hN ∧ (h.drop p).take n.length = n then some (.ret (some p))
    else
      match h.get? (p + n.length) with
      | none => some .oob
      | some bIn =>
        rkRoll h n hN endIdx (p + 1)
          ((hH + bIn % 2 ^ 32 + (2 ^ 32 - h.getD p 0 % 2 ^ 32)) % 2 ^ 32) fuel

/-- Rabin-Karp, length-based (`searchRabinKarp`). -/
def searchRabinKarp (h n : List Nat) : Option CResult :=
  if h.length < n.length then some (.ret none)
  else if n.length = 0 then some (.ret (some 0))
  else
    match memchrAux h (n.getD 0 0) h.length with
    | none => some (.ret none)
    | some p =>
      match rkInitHash h n p 0 0 0 n.length with
      | .oobE => some .oob
      | .nulE => some (.ret none)
      | .okE hN hH => rkRoll h n hN (h.length - n.length + 1) p hH (h.length + 2)

/-- `strchr` on the buffer `h` for a non-NUL byte `c` (the caller of the
embedding guarantees `c ≠ 0`); `j` is the index of the current byte. -/
def strchrAux : List Nat → Nat → Nat → Option Nat
  | [], _, _ => none
  | b :: rest, c, j =>
    if b = 0 then none
    else if b % 256 = c % 256 then some j
    else strchrAux rest c (j + 1)

/-- Dual summing loop of `searchRabinKarpString`: advances through the
needle (index `i`) and the haystack (index `j`) while both bytes are
non-NUL, accumulating both hashes.  Returns `(hN, hH, i, j)`. -/
def rkStringSums (h n : List Nat) : Nat → Nat → Nat → Nat → Nat → Nat × Nat × Nat × Nat
  | i, j, hN, hH, 0 => (hN, hH, i, j)
  | i, j, hN, hH, fuel + 1 =>
    if n.getD i 0 ≠ 0 ∧ h.getD j 0 ≠ 0 then
      rkStringSums h n (i + 1) (j + 1) ((hN + n.getD i 0 % 2 ^ 32) % 2 ^ 32)
        ((hH + h.getD j 0 % 2 ^ 32) % 2 ^ 32) fuel
    else (hN, hH, i, j)

/-- Rolling loop of `searchRabinKarpString`: `p` is the window start,
`sj` the `scanHaystack` index; stops at the haystack terminator. -/
def rkStringRoll (h n : List Nat) (m hN : Nat) : Nat → Nat → Nat → Nat → Option (Option Nat)
  | _, _, _, 0 => none
  | p, sj, hH, fuel + 1 =>
    if hH = hN ∧ (h.drop p).take m == n.take m then some (some p)
    else if h.getD sj 0 = 0 then some none
    else
      rkStringRoll h n m hN (p + 1) (sj + 1)
        ((hH + h.getD sj 0 % 2 ^ 32 + (2 ^ 32 - h.getD p 0 % 2 ^ 32)) % 2 ^ 32) fuel

/-- Rabin-Karp, NUL-terminated variant (`searchRabinKarpString`). -/
def searchRabinKarpString (h n : List Nat) : Option (Option Nat) :=
  if n.getD 0 0 = 0 then some (some 0)
  else
    match strchrAux h (n.getD 0 0) 0 with
    | none => some none
    | some p =>
      match rkStringSums h n 1 (p + 1) (n.getD 0 0 % 2 ^ 32) (h.getD p 0 % 2 ^ 32)
          (n.length + 2) with
      | (hN, hH, i, j) =>
        if n.getD i 0 ≠ 0 then some none
        else rkStringRoll h n i hN p j hH (h.length + 2)

/-! ## Line-scan driver (mygrep.c lines 144-236)

The driver loads the file into a buffer padded with a trailing `'\n'`
and a NUL byte; `paddedGet` reads that padded buffer. -/

/-- Read of the padded buffer `data`: logical bytes, then the `'\n'`
pad, then the NUL pad. -/
def paddedGet (h : List Nat) (i : Nat) : Nat :=
  if i < h.length then h.getD i 0 else if i = h.length then 10 else 0

/-- Forward scan for the end of the line containing `p`, with `d` the
distance from `p` to `haystackEnd` (the loop guard `right != haystackEnd`
is `d = 0`). -/
def lineRightAux (h : List Nat) : Nat → Nat → Nat
  | p, 0 => p
  | p, d + 1 => if h.getD p 0 = 10 then p else lineRightAux h (p + 1) d

/-- Forward scan for the end of the line containing `p`: first index
`≥ p` that is `haystackLength` or holds a newline.  Callers keep
`p ≤ haystackLength`. -/
def lineRight (h : List Nat) (p : Nat) : Nat :=
  lineRightAux h p (h.length - p)

/-- Backward scan of the left-boundary loop: last stop of
`while (left != haystack && *left != '\n') left--;` started at `p`. -/
def lineLeftScan (h : List Nat) : Nat → Nat
  | 0 => 0
  | p + 1 => if paddedGet h (p + 1) = 10 then p + 1 else lineLeftScan h p

/-- Start of the line containing `p`: the backward scan, then
`if (*left == '\n' && left != haystackEnd) left++;`. -/
def lineLeft (h : List Nat) (p : Nat) : Nat :=
  let l := lineLeftScan h p
  if paddedGet h l = 10 ∧ l ≠ h.length then l + 1 else l

/-- Full-mode driver loop: returns the emitted line spans `[left, right)`
in order, paired with `true` when the loop reached "not found" (and
`false` when the fuel ran out first, i.e. the prefix of a diverging
run).  `search` is the selected matcher; a matcher value of `none` is
the fuel artifact of the matcher embedding and also ends the prefix. -/
def mygrepLinesAux (search : List Nat → List Nat → Option (Option Nat))
    (h n : List Nat) : Nat → Nat → List (Nat × Nat) × Bool
  | _, 0 => ([], false)
  | cur, fuel + 1 =>
    match search (h.drop cur) n with
    | none => ([], false)
    | some none => ([], true)
    | some (some rel) =>
      let p := cur + rel
      let r := lineRight h p
      let l := lineLeft h p
      let rest := mygrepLinesAux search h n r fuel
      ((l, r) :: rest.1, rest.2)

/-- Full-mode driver run from the start of the haystack. -/
def mygrepLines (search : List Nat → List Nat → Option (Option Nat))
    (h n : List Nat) : List (Nat × Nat) × Bool :=
  mygrepLinesAux search h n 0 (h.length + 2)

/-- Count-only driver loop: skips the left-boundary work, counts one hit
per matcher call, and jumps to the right boundary. -/
def mygrepCountAux (search : List Nat → List Nat → Option (Option Nat))
    (h n : List Nat) : Nat → Nat → Nat × Bool
  | _, 0 => (0, false)
  | cur, fuel + 1 =>
    match search (h.drop cur) n with
    | none => (0, false)
    | some none => (0, true)
    | some (some rel) =>
      let r := mygrepCountAux search h n (lineRight h (cur + rel)) fuel
      (r.1 + 1, r.2)

/-- Count-only driver run from the start of the haystack. -/
def mygrepCount (search : List Nat → List Nat → Option (Option Nat))
    (h n : List Nat) : Nat × Bool :=
  mygrepCountAux search h n 0 (h.length + 2)

/-! ## Spec-side table descriptions (for claim C6) -/

/-- The positions `pos, pos+1, ..., pos+cnt-1`. -/
def posList : Nat → Nat → List Nat
  | _, 0 => []
  | pos, cnt + 1 => pos :: posList (pos + 1) cnt

/-- Skip table as the specification sentence words it: distance from the
rightmost occurrence of the byte anywhere in the needle to the needle's
last position, default `needleLength` when absent. -/
def bmhSkipClaim (n : List Nat) (c : Nat) : Nat :=
  match ((posList 0 n.length).filter (fun p => n.getD p 0 == c)).getLast? with
  | some p => n.length - 1 - p
  | none => n.length

/-- Skip table as amended: distance from the rightmost occurrence of the
byte among the first `needleLength - 1` needle positions (the last
position does not count) to the needle's last position, default
`needleLength` when absent there. -/
def bmhSkipSpec (n : List Nat) (c : Nat) : Nat :=
  match ((posList 0 (n.length - 1)).filter (fun p => n.getD p 0 == c)).getLast? with
  | some p => n.length - 1 - p
  | none => n.length

/-! ## Basic lemmas: windows, occurrences, first occurrence -/

lemma getD_eq_getElem_zero (l : List Nat) (i : Nat) (h : i < l.length) :
    l.getD i 0 = l[i] := by
  simp [List.getD_eq_getElem?_getD, List.getElem?_eq_getElem h]

lemma window_eq_iff (h : List Nat) :
    ∀ (n : List Nat) (s : Nat), s + n.length ≤ h.length →
      ((h.drop s).take n.length = n ↔ ∀ k, k < n.length → h.getD (s + k) 0 = n.getD k 0) := by
  intro n
  induction n with
  | nil => intro s hs; simp
  | cons a tl ih =>
    intro s hs
    have hlen : s + (tl.length + 1) ≤ h.length := by simpa using hs
    have hsl : s < h.length := by omega
    have hs' : s + 1 + tl.length ≤ h.length := by omega
    have hdrop : h.drop s = h[s] :: h.drop (s + 1) := List.drop_eq_getElem_cons hsl
    have ih' := ih (s + 1) hs'
    rw [hdrop]
    simp only [List.length_cons, List.take_succ_cons, List.cons.injEq]
    constructor
    · rintro ⟨rfl, h2⟩ k hk
      match k with
      | 0 =>
        simp only [Nat.add_zero, List.getD_cons_zero]
        exact getD_eq_getElem_zero h s hsl
      | k + 1 =>
        have hk' : k < tl.length := by omega
        have hstep := (ih'.1 h2) k hk'
        have e1 : s + 1 + k = s + (k + 1) := by omega
        rw [e1] at hstep
        simpa only [List.getD_cons_succ] using hstep
    · intro hall
      have h0 := hall 0 (by omega)
      simp only [Nat.add_zero, List.getD_cons_zero] at h0
      rw [getD_eq_getElem_zero h s hsl] at h0
      refine ⟨h0, ih'.2 fun k hk => ?_⟩
      have hstep := hall (k + 1) (by omega)
      have e1 : s + (k + 1) = s + 1 + k := by omega
      rw [e1] at hstep
      simpa only [List.getD_cons_succ] using hstep

lemma occursAt_iff_pointwise (h n : List Nat) (i : Nat) :
    occursAt h n i ↔
      (i + n.length ≤ h.length ∧ ∀ k, k < n.length → h.getD (i + k) 0 = n.getD k 0) := by
  unfold occursAt
  constructor
  · rintro ⟨h1, h2⟩; exact ⟨h1, (window_eq_iff h n i h1).1 h2⟩
  · rintro ⟨h1, h2⟩; exact ⟨h1, (window_eq_iff h n i h1).2 h2⟩

lemma firstOccFrom_eq_some_iff (h n : List Nat) :
    ∀ (cnt s i : Nat), firstOccFrom h n s cnt = some i ↔
      (s ≤ i ∧ i < s + cnt ∧ occursAt h n i ∧ ∀ j, s ≤ j → j < i → ¬ occursAt h n j) := by
  intro cnt
  induction cnt with
  | zero => intro s i; simp [firstOccFrom]; omega
  | succ c ih =>
    intro s i
    rw [firstOccFrom]
    by_cases hocc : occursAt h n s
    · simp only [hocc, if_true, Option.some.injEq]
      constructor
      · rintro rfl
        exact ⟨Nat.le_refl _, by omega, hocc, fun j h1 h2 => by omega⟩
      · rintro ⟨h1, h2, h3, h4⟩
        by_contra hne
        exact h4 s (Nat.le_refl _) (by omega) hocc
    · simp only [hocc, if_false, ih (s + 1) i]
      constructor
      · rintro ⟨h1, h2, h3, h4⟩
        refine ⟨by omega, by omega, h3, fun j hj1 hj2 => ?_⟩
        rcases Nat.eq_or_lt_of_le hj1 with rfl | hlt
        · exact hocc
        · exact h4 j hlt hj2
      · rintro ⟨h1, h2, h3, h4⟩
        have hne : i ≠ s := fun he => hocc (he ▸ h3)
        exact ⟨by omega, by omega, h3, fun j hj1 hj2 => h4 j (by omega) hj2⟩

lemma firstOccFrom_eq_none_iff (h n : List Nat) :
    ∀ (cnt s : Nat), firstOccFrom h n s cnt = none ↔
      ∀ j, s ≤ j → j < s + cnt → ¬ occursAt h n j := by
  intro cnt
  induction cnt with
  | zero => intro s; simp [firstOccFrom]; omega
  | succ c ih =>
    intro s
    rw [firstOccFrom]
    by_cases hocc : occursAt h n s
    · simp only [hocc, if_true]
      constructor
      · intro hcontra; exact absurd hcontra (by simp)
      · intro hall; exact absurd hocc (hall s (Nat.le_refl _) (by omega))
    · simp only [hocc, if_false, ih (s + 1)]
      constructor
      · intro h1 j hj1 hj2
        rcases Nat.eq_or_lt_of_le hj1 with rfl | hlt
        · exact hocc
        · exact h1 j hlt (by omega)
      · intro h1 j hj1 hj2
        exact h1 j (by omega) (by omega)

lemma firstOcc_eq_some_of (h n : List Nat) (i : Nat)
    (hocc : occursAt h n i) (hmin : ∀ j, j < i → ¬ occursAt h n j) :
    firstOcc h n = some i := by
  unfold firstOcc
  rw [firstOccFrom_eq_some_iff]
  have hi : i ≤ h.length := by
    rcases hocc with ⟨h1, _⟩; omega
  exact ⟨Nat.zero_le _, by omega, hocc, fun j _ hj => hmin j hj⟩

lemma firstOcc_eq_none_of (h n : List Nat)
    (hall : ∀ j, ¬ occursAt h n j) : firstOcc h n = none := by
  unfold firstOcc
  rw [firstOccFrom_eq_none_iff]
  exact fun j _ _ => hall j

lemma firstOcc_nil_needle (h : List Nat) : firstOcc h [] = some 0 := by
  apply firstOcc_eq_some_of
  · exact ⟨by simp, by simp⟩
  · intro j hj; omega

lemma firstOcc_eq_none_of_short (h n : List Nat) (hs : h.length < n.length) :
    firstOcc h n = none := by
  apply firstOcc_eq_none_of
  intro j hocc
  rcases hocc with ⟨h1, _⟩
  omega

/-! ## searchSimple lemmas -/

lemma simpleCmp_iff (h n : List Nat) (s : Nat) :
    ∀ (cnt i : Nat), simpleCmp h n s i cnt = true ↔
      ∀ t, t < cnt → h.getD (s + (i + t)) 0 = n.getD (i + t) 0 := by
  intro cnt
  induction cnt with
  | zero => intro i; simp [simpleCmp]
  | succ c ih =>
    intro i
    rw [simpleCmp]
    simp only [Bool.and_eq_true, beq_iff_eq, ih (i + 1)]
    constructor
    · rintro ⟨h1, h2⟩ t ht
      rcases Nat.eq_zero_or_pos t with rfl | hp
      · simpa using h1
      · have := h2 (t - 1) (by omega)
        have e : i + 1 + (t - 1) = i + t := by omega
        rw [e] at this
        exact this
    · intro hall
      refine ⟨by simpa using hall 0 (by omega), fun t ht => ?_⟩
      have := hall (t + 1) (by omega)
      have e : i + (t + 1) = i + 1 + t := by omega
      rw [e] at this
      exact this

lemma simpleLoop_eq_some (h n : List Nat) :
    ∀ (cnt s i : Nat), simpleLoop h n s cnt = some i →
      s ≤ i ∧ i < s + cnt ∧ simpleCmp h n i 0 n.length = true := by
  intro cnt
  induction cnt with
  | zero => intro s i hc; exact absurd hc (by simp [simpleLoop])
  | succ c ih =>
    intro s i hc
    rw [simpleLoop] at hc
    split at hc
    · next hcmp =>
      cases hc
      exact ⟨Nat.le_refl _, by omega, hcmp⟩
    · have := ih (s + 1) i hc
      exact ⟨by omega, by omega, this.2.2⟩

lemma searchSimple_sound (h n : List Nat) (i : Nat)
    (hs : searchSimple h n = some i) : occursAt h n i := by
  unfold searchSimple at hs
  split at hs
  · exact absurd hs (by simp)
  · next hL =>
    obtain ⟨h1, h2, h3⟩ := simpleLoop_eq_some h n _ 0 i hs
    rw [occursAt_iff_pointwise]
    refine ⟨by omega, fun k hk => ?_⟩
    have := (simpleCmp_iff h n i n.length 0).1 h3 k hk
    simpa using this

/-! ## Boyer-Moore-Horspool lemmas -/

lemma mem_of_getLast?_eq_some {l : List Nat} {q : Nat} (hq : l.getLast? = some q) :
    q ∈ l := by
  induction l with
  | nil => simp at hq
  | cons a tl ih =>
    cases tl with
    | nil =>
      rw [List.getLast?_singleton] at hq
      injection hq with h2
      subst h2
      exact List.mem_singleton_self a
    | cons b tl2 =>
      rw [List.getLast?_cons_cons] at hq
      exact List.mem_cons_of_mem a (ih hq)

lemma getLast?_cons_eq (a : Nat) (l : List Nat) :
    (a :: l).getLast? =
      match l.getLast? with
      | some b => some b
      | none => some a := by
  cases l with
  | nil => simp
  | cons b tl =>
    rw [List.getLast?_cons_cons]
    cases htl : (b :: tl).getLast? with
    | none => rw [List.getLast?_eq_none_iff] at htl; cases htl
    | some x => simp

lemma posList_mem : ∀ (cnt pos p : Nat), p ∈ posList pos cnt ↔ pos ≤ p ∧ p < pos + cnt := by
  intro cnt
  induction cnt with
  | zero => intro pos p; simp [posList]
  | succ k ih =>
    intro pos p
    rw [posList]
    simp only [List.mem_cons, ih (pos + 1) p]
    omega

lemma posList_pairwise : ∀ (cnt pos : Nat), (posList pos cnt).Pairwise (· < ·) := by
  intro cnt
  induction cnt with
  | zero => intro pos; simp [posList]
  | succ k ih =>
    intro pos
    rw [posList]
    refine List.Pairwise.cons ?_ (ih (pos + 1))
    intro q hq
    have := (posList_mem k (pos + 1) q).1 hq
    omega

lemma le_getLast?_of_pairwise {l : List Nat} {p q : Nat}
    (hs : l.Pairwise (· < ·)) (hp : p ∈ l) (hq : l.getLast? = some q) : p ≤ q := by
  induction l with
  | nil => simp at hp
  | cons a tl ih =>
    rcases List.mem_cons.1 hp with rfl | hptl
    · cases tl with
      | nil =>
        rw [List.getLast?_singleton] at hq
        injection hq with h2
        omega
      | cons b tl2 =>
        rw [List.getLast?_cons_cons] at hq
        have hqmem : q ∈ b :: tl2 := mem_of_getLast?_eq_some hq
        have := (List.pairwise_cons.1 hs).1 q hqmem
        omega
    · cases tl with
      | nil => simp at hptl
      | cons b tl2 =>
        rw [List.getLast?_cons_cons] at hq
        exact ih (List.pairwise_cons.1 hs).2 hptl hq

lemma bmhSkipFrom_eq (n : List Nat) (lp : Nat) :
    ∀ (cnt pos : Nat) (t : Nat → Nat) (c : Nat),
      bmhSkipFrom n lp pos cnt t c =
        match ((posList pos cnt).filter (fun p => n.getD p 0 % 256 == c)).getLast? with
        | some p => lp - p
        | none => t c := by
  intro cnt
  induction cnt with
  | zero => intro pos t c; simp [bmhSkipFrom, posList]
  | succ k ih =>
    intro pos t c
    rw [bmhSkipFrom, posList, ih (pos + 1), List.filter_cons]
    by_cases hkey : (n.getD pos 0 % 256 == c) = true
    · rw [if_pos hkey, getLast?_cons_eq]
      cases hrest : ((posList (pos + 1) k).filter (fun p => n.getD p 0 % 256 == c)).getLast? with
      | none =>
        simp only [hrest]
        unfold updSkip
        rw [if_pos (beq_iff_eq.1 hkey).symm]
      | some p => simp only [hrest]
    · rw [if_neg hkey]
      cases hrest : ((posList (pos + 1) k).filter (fun p => n.getD p 0 % 256 == c)).getLast? with
      | none =>
        simp only [hrest]
        unfold updSkip
        rw [if_neg]
        intro he
        exact hkey (by simp [he])
      | some p => simp only [hrest]

lemma bmhSkip_eq_match (n : List Nat) (c : Nat) :
    bmhSkip n c =
      match ((posList 0 (n.length - 1)).filter (fun p => n.getD p 0 % 256 == c)).getLast? with
      | some p => n.length - 1 - p
      | none => n.length := by
  unfold bmhSkip
  rw [bmhSkipFrom_eq]

lemma bmhSkip_bounds (n : List Nat) (hn : n ≠ []) (c : Nat) :
    1 ≤ bmhSkip n c ∧ bmhSkip n c ≤ n.length := by
  have hm : 1 ≤ n.length := List.length_pos.2 hn
  rw [bmhSkip_eq_match]
  cases hlast : ((posList 0 (n.length - 1)).filter (fun p => n.getD p 0 % 256 == c)).getLast? with
  | none => exact ⟨hm, Nat.le_refl _⟩
  | some p =>
    show 1 ≤ n.length - 1 - p ∧ n.length - 1 - p ≤ n.length
    have hp : p ∈ posList 0 (n.length - 1) :=
      (List.mem_filter.1 (mem_of_getLast?_eq_some hlast)).1
    have := (posList_mem (n.length - 1) 0 p).1 hp
    omega

lemma bmhSkip_le (n : List Nat) (p : Nat) (hp : p + 1 < n.length) :
    bmhSkip n (n.getD p 0 % 256) ≤ n.length - 1 - p := by
  rw [bmhSkip_eq_match]
  have hmem : p ∈ (posList 0 (n.length - 1)).filter
      (fun x => n.getD x 0 % 256 == n.getD p 0 % 256) := by
    refine List.mem_filter.2 ⟨(posList_mem (n.length - 1) 0 p).2 ⟨Nat.zero_le _, by omega⟩, ?_⟩
    simp
  cases hlast : ((posList 0 (n.length - 1)).filter
      (fun x => n.getD x 0 % 256 == n.getD p 0 % 256)).getLast? with
  | none =>
    rw [List.getLast?_eq_none_iff] at hlast
    rw [hlast] at hmem
    simp at hmem
  | some q =>
    show n.length - 1 - q ≤ n.length - 1 - p
    have hsorted : ((posList 0 (n.length - 1)).filter
        (fun x => n.getD x 0 % 256 == n.getD p 0 % 256)).Pairwise (· < ·) :=
      List.Pairwise.filter _ (posList_pairwise (n.length - 1) 0)
    have hpq : p ≤ q := le_getLast?_of_pairwise hsorted hmem hlast
    omega

lemma bmhSkip_eq_spec (n : List Nat) (hb : ∀ b ∈ n, b < 256) (c : Nat) (hc : c < 256) :
    bmhSkip n c = bmhSkipSpec n c := by
  rw [bmhSkip_eq_match]
  unfold bmhSkipSpec
  have hfe : (posList 0 (n.length - 1)).filter (fun p => n.getD p 0 % 256 == c) =
      (posList 0 (n.length - 1)).filter (fun p => n.getD p 0 == c) := by
    apply List.filter_congr
    intro p hp
    have hplt := (posList_mem (n.length - 1) 0 p).1 hp
    have hpn : p < n.length := by omega
    have hmem : n.getD p 0 ∈ n := by
      rw [getD_eq_getElem_zero n p hpn]
      exact List.getElem_mem hpn
    rw [Nat.mod_eq_of_lt (hb _ hmem)]
  rw [hfe]

lemma bmhMatchFrom_iff (h n : List Nat) (s : Nat) :
    ∀ i, bmhMatchFrom h n s i = true ↔ ∀ k, k ≤ i → h.getD (s + k) 0 = n.getD k 0 := by
  intro i
  induction i with
  | zero =>
    rw [bmhMatchFrom]
    simp only [beq_iff_eq]
    constructor
    · intro he k hk
      have : k = 0 := by omega
      subst this
      simpa using he
    · intro hall
      simpa using hall 0 (Nat.le_refl 0)
  | succ i ih =>
    rw [bmhMatchFrom]
    simp only [Bool.and_eq_true, beq_iff_eq, ih]
    constructor
    · rintro ⟨h1, h2⟩ k hk
      rcases Nat.lt_or_ge k (i + 1) with hlt | hge
      · exact h2 k (by omega)
      · have : k = i + 1 := by omega
        subst this
        exact h1
    · intro hall
      exact ⟨hall (i + 1) (Nat.le_refl _), fun k hk => hall k (by omega)⟩

lemma bmhLoop_eq_firstOcc (h n : List Nat) (hn : n ≠ []) :
    ∀ (fuel s len : Nat), s + len = h.length → len < fuel →
      (∀ j, j < s → ¬ occursAt h n j) →
      bmhLoop h n (bmhSkip n) s len fuel = some (firstOcc h n) := by
  have hm1 : 1 ≤ n.length := List.length_pos.2 hn
  intro fuel
  induction fuel with
  | zero => intro s len h1 h2 h3; omega
  | succ f ih =>
    intro s len hslen hfuel hinv
    rw [bmhLoop]
    by_cases hlen : len < n.length
    · rw [if_pos hlen]
      congr 1
      refine (firstOcc_eq_none_of h n ?_).symm
      intro j hocc
      have hj := hocc.1
      have : j < s := by omega
      exact hinv j this hocc
    · rw [if_neg hlen]
      cases hmatch : bmhMatchFrom h n s (n.length - 1) with
      | true =>
        simp only [if_pos]
        congr 1
        refine (firstOcc_eq_some_of h n s ?_ (fun j hj => hinv j hj)).symm
        rw [occursAt_iff_pointwise]
        refine ⟨by omega, fun k hk => ?_⟩
        exact (bmhMatchFrom_iff h n s (n.length - 1)).1 hmatch k (by omega)
      | false =>
        simp only [Bool.false_eq_true, if_neg, not_false_iff]
        have hk1 := bmhSkip_bounds n hn (h.getD (s + (n.length - 1)) 0 % 256)
        apply ih (s + bmhSkip n (h.getD (s + (n.length - 1)) 0 % 256))
            (len - bmhSkip n (h.getD (s + (n.length - 1)) 0 % 256))
            (by omega) (by omega)
        intro j hj
        rcases Nat.lt_or_ge j s with hjs | hjs
        · exact hinv j hjs
        · intro hocc
          rw [occursAt_iff_pointwise] at hocc
          obtain ⟨hjb, hpt⟩ := hocc
          rcases Nat.eq_or_lt_of_le hjs with heq | hjgt
          · have hj0 : bmhMatchFrom h n s (n.length - 1) = true := by
              apply (bmhMatchFrom_iff h n s (n.length - 1)).2
              intro k2 hk2
              rw [heq]
              exact hpt k2 (by omega)
            rw [hj0] at hmatch
            cases hmatch
          · have hd1 : 1 ≤ j - s := by omega
            have hd2 : j - s ≤ n.length - 1 := by omega
            have hp1 : (n.length - 1 - (j - s)) + 1 < n.length := by omega
            have hb2 : h.getD (s + (n.length - 1)) 0 = n.getD (n.length - 1 - (j - s)) 0 := by
              have h3 := hpt (n.length - 1 - (j - s)) (by omega)
              have e : j + (n.length - 1 - (j - s)) = s + (n.length - 1) := by omega
              rw [e] at h3
              exact h3
            have hle := bmhSkip_le n (n.length - 1 - (j - s)) hp1
            rw [← hb2] at hle
            omega

lemma bmh_main (h n : List Nat) :
    searchBoyerMooreHorspool h n = some (firstOcc h n) := by
  unfold searchBoyerMooreHorspool
  by_cases h1 : h.length < n.length
  · rw [if_pos h1, firstOcc_eq_none_of_short h n h1]
  · rw [if_neg h1]
    by_cases h2 : n.length = 0
    · have hne : n = [] := List.length_eq_zero.1 h2
      subst hne
      simp [firstOcc_nil_needle]
    · have hn : n ≠ [] := fun he => h2 (by simp [he])
      rw [if_neg h2]
      exact bmhLoop_eq_firstOcc h n hn (h.length + 1) 0 h.length (by omega) (by omega)
        (fun j hj => by omega)

/-! ## Bitap lemmas -/

lemma and_two_pow_eq_zero_iff (x m : Nat) : x &&& 2 ^ m = 0 ↔ x.testBit m = false := by
  constructor
  · intro h0
    have := Nat.testBit_and x (2 ^ m) m
    rw [h0] at this
    simp [Nat.testBit_two_pow] at this
    exact this
  · intro hbit
    apply Nat.eq_of_testBit_eq
    intro i
    rw [Nat.testBit_and, Nat.zero_testBit, Nat.testBit_two_pow]
    by_cases him : m = i
    · subst him; simp [hbit]
    · simp [him]

lemma xor_mask_testBit (i k : Nat) (hk : k < 32) :
    ((2 ^ 32 - 1) ^^^ (1 <<< i)).testBit k = !decide (k = i) := by
  have h1 : (1 <<< i : Nat) = 2 ^ i := by rw [Nat.shiftLeft_eq, one_mul]
  rw [Nat.testBit_xor, h1, Nat.testBit_two_pow_sub_one, Nat.testBit_two_pow]
  by_cases he : k = i
  · subst he; simp [hk]
  · have he2 : ¬ i = k := fun h2 => he h2.symm
    simp [hk, he, he2]

lemma bitapMasksAux_testBit_iff :
    ∀ (l : List Nat) (i : Nat) (t : Nat → Nat) (c k : Nat), k < 32 → i + l.length ≤ 32 →
      (((bitapMasksAux l i t) c).testBit k = false ↔
        ((t c).testBit k = false ∨
          (i ≤ k ∧ k < i + l.length ∧ l.getD (k - i) 0 % 256 = c))) := by
  intro l
  induction l with
  | nil =>
    intro i t c k hk hi
    rw [bitapMasksAux]
    simp only [List.length_nil, List.getD_nil]
    constructor
    · exact Or.inl
    · rintro (h0 | ⟨h1, h2, h3⟩)
      · exact h0
      · omega
  | cons b rest ih =>
    intro i t c k hk hi
    have hi' : i + 1 + rest.length ≤ 32 := by simp at hi; omega
    rw [bitapMasksAux]
    rw [ih (i + 1) (fun c' => if c' = b % 256 then t c' &&& ((2 ^ 32 - 1) ^^^ (1 <<< i)) else t c')
      c k hk hi']
    have hmask : ((if c = b % 256 then t c &&& ((2 ^ 32 - 1) ^^^ (1 <<< i)) else t c)).testBit k
        = false ↔ ((t c).testBit k = false ∨ (c = b % 256 ∧ k = i)) := by
      by_cases hc : c = b % 256
      · rw [if_pos hc, Nat.testBit_and, xor_mask_testBit i k hk]
        cases htb : (t c).testBit k <;> by_cases hki : k = i <;> simp [htb, hki, hc]
      · rw [if_neg hc]
        simp [hc]
    simp only [hmask, List.length_cons]
    constructor
    · rintro ((h0 | ⟨hc, hki⟩) | ⟨h1, h2, h3⟩)
      · exact Or.inl h0
      · refine Or.inr ⟨by omega, by omega, ?_⟩
        have hz : k - i = 0 := by omega
        rw [hz, List.getD_cons_zero]
        exact hc.symm
      · refine Or.inr ⟨by omega, by omega, ?_⟩
        have hz : k - i = (k - i - 1) + 1 := by omega
        rw [hz, List.getD_cons_succ]
        have e : k - i - 1 = k - (i + 1) := by omega
        rw [e]
        exact h3
    · rintro (h0 | ⟨h1, h2, h3⟩)
      · exact Or.inl (Or.inl h0)
      · rcases Nat.eq_or_lt_of_le h1 with heq | hgt
        · left
          right

          refine ⟨?_, by omega⟩
          have hz : k - i = 0 := by omega
          rw [hz, List.getD_cons_zero] at h3
          exact h3.symm
        · right
          refine ⟨by omega, by omega, ?_⟩
          have hz : k - i = (k - i - 1) + 1 := by omega
          rw [hz, List.getD_cons_succ] at h3
          have e : k - i - 1 = k - (i + 1) := by omega
          rw [e] at h3
          exact h3

lemma or_testBit_eq_false_iff (a b : Nat) (i : Nat) :
    (a ||| b).testBit i = false ↔ (a.testBit i = false ∧ b.testBit i = false) := by
  rw [Nat.testBit_or]
  cases ha : a.testBit i <;> cases hb : b.testBit i <;> simp

lemma bitapMasks_testBit_iff (n : List Nat) (c k : Nat) (hk : k < 32) (hlen : n.length ≤ 32) :
    ((bitapMasks n c).testBit k = false ↔ (k < n.length ∧ n.getD k 0 % 256 = c)) := by
  unfold bitapMasks
  rw [bitapMasksAux_testBit_iff n 0 (fun _ => 2 ^ 32 - 1) c k hk (by omega)]
  simp only [Nat.testBit_two_pow_sub_one, Nat.zero_add, Nat.zero_le, true_and, Nat.sub_zero]
  constructor
  · rintro (h0 | ⟨h1, h2⟩)
    · simp [hk] at h0
    · exact ⟨h1, h2⟩
  · rintro ⟨h1, h2⟩
    exact Or.inr ⟨h1, h2⟩

lemma bitap_state_step (h n : List Nat) (hm31 : n.length ≤ 31)
    (hbh : ∀ b ∈ h, b < 256) (hbn : ∀ b ∈ n, b < 256)
    (j : Nat) (hjlt : j < h.length) (state : Nat)
    (hbit0 : state.testBit 0 = false)
    (hinv : ∀ k, 1 ≤ k → k ≤ 31 → k ≤ n.length →
      (state.testBit k = false ↔ (k ≤ j ∧ ∀ t, t < k → h.getD (j - k + t) 0 = n.getD t 0))) :
    ∀ k, k ≤ 31 → 1 ≤ k → k ≤ n.length →
      ((((state ||| bitapMasks n (h[j] % 256)) <<< 1) % 2 ^ 32).testBit k = false ↔
        (k ≤ j + 1 ∧ ∀ t, t < k → h.getD (j + 1 - k + t) 0 = n.getD t 0)) := by
  intro k hk31 hk1 hkm
  have hb256 : h[j] < 256 := hbh _ (List.getElem_mem hjlt)
  have hbmod : h[j] % 256 = h[j] := Nat.mod_eq_of_lt hb256
  rw [Nat.testBit_mod_two_pow, Nat.testBit_shiftLeft]
  have hd1 : (decide (k < 32)) = true := by simp; omega
  have hd2 : (decide (k ≥ 1)) = true := by simp; omega
  rw [hd1, hd2, Bool.true_and, Bool.true_and, or_testBit_eq_false_iff]
  have hstate : state.testBit (k - 1) = false ↔
      (k - 1 ≤ j ∧ ∀ t, t < k - 1 → h.getD (j - (k - 1) + t) 0 = n.getD t 0) := by
    rcases Nat.eq_or_lt_of_le hk1 with h1 | hgt
    · have hz : k - 1 = 0 := by omega
      rw [hz]
      simp [hbit0]
    · exact hinv (k - 1) (by omega) (by omega) (by omega)
  have hmask : (bitapMasks n (h[j] % 256)).testBit (k - 1) = false ↔
      (k - 1 < n.length ∧ n.getD (k - 1) 0 = h[j]) := by
    rw [bitapMasks_testBit_iff n _ (k - 1) (by omega) (by omega), hbmod]
    constructor
    · rintro ⟨h1, h2⟩
      have hmem : n.getD (k - 1) 0 ∈ n := by
        rw [getD_eq_getElem_zero n (k - 1) h1]
        exact List.getElem_mem h1
      rw [Nat.mod_eq_of_lt (hbn _ hmem)] at h2
      exact ⟨h1, h2⟩
    · rintro ⟨h1, h2⟩
      have hmem : n.getD (k - 1) 0 ∈ n := by
        rw [getD_eq_getElem_zero n (k - 1) h1]
        exact List.getElem_mem h1
      rw [Nat.mod_eq_of_lt (hbn _ hmem)]
      exact ⟨h1, h2⟩
  rw [hstate, hmask]
  constructor
  · rintro ⟨⟨ha1, ha2⟩, hb1, hb2⟩
    refine ⟨by omega, fun t ht => ?_⟩
    rcases Nat.lt_or_ge t (k - 1) with htl | htg
    · have := ha2 t htl
      have e : j - (k - 1) + t = j + 1 - k + t := by omega
      rw [e] at this
      exact this
    · have hte : t = k - 1 := by omega
      subst hte
      have e : j + 1 - k + (k - 1) = j := by omega
      rw [e, getD_eq_getElem_zero h j hjlt]
      exact hb2.symm
  · rintro ⟨hc1, hc2⟩
    refine ⟨⟨by omega, fun t ht => ?_⟩, by omega, ?_⟩
    · have := hc2 t (by omega)
      have e : j + 1 - k + t = j - (k - 1) + t := by omega
      rw [e] at this
      exact this
    · have := hc2 (k - 1) (by omega)
      have e : j + 1 - k + (k - 1) = j := by omega
      rw [e, getD_eq_getElem_zero h j hjlt] at this
      exact this.symm

lemma shiftLeft_mod_testBit_zero (x : Nat) : ((x <<< 1) % 2 ^ 32).testBit 0 = false := by
  rw [Nat.testBit_mod_two_pow, Nat.testBit_shiftLeft]
  simp

lemma bitapLoop_eq_firstOcc (h n : List Nat) (hm1 : 1 ≤ n.length) (hm31 : n.length ≤ 31)
    (hbh : ∀ b ∈ h, b < 256) (hbn : ∀ b ∈ n, b < 256) :
    ∀ (d j state : Nat), j + d = h.length →
      state.testBit 0 = false →
      (∀ k, 1 ≤ k → k ≤ 31 → k ≤ n.length →
        (state.testBit k = false ↔ (k ≤ j ∧ ∀ t, t < k → h.getD (j - k + t) 0 = n.getD t 0))) →
      (∀ s, s + n.length ≤ j → ¬ occursAt h n s) →
      bitapLoop (bitapMasks n) (1 <<< n.length) n.length (h.drop j) state j = firstOcc h n := by
  intro d
  induction d with
  | zero =>
    intro j state hj _ _ hnocc
    have hjl : j = h.length := by omega
    subst hjl
    rw [List.drop_length, bitapLoop]
    refine (firstOcc_eq_none_of h n ?_).symm
    intro s hocc
    exact hnocc s (by rcases hocc with ⟨h1, _⟩; omega) hocc
  | succ d ih =>
    intro j state hj hbit0 hinv hnocc
    have hjlt : j < h.length := by omega
    rw [List.drop_eq_getElem_cons hjlt, bitapLoop]
    show (if (((state ||| bitapMasks n (h[j] % 256)) <<< 1) % 2 ^ 32) &&& (1 <<< n.length) = 0
        then some (j + 1 - n.length)
        else bitapLoop (bitapMasks n) (1 <<< n.length) n.length (h.drop (j + 1))
          (((state ||| bitapMasks n (h[j] % 256)) <<< 1) % 2 ^ 32) (j + 1)) = firstOcc h n
    have hstep := bitap_state_step h n hm31 hbh hbn j hjlt state hbit0 hinv
    have hfull : (1 <<< n.length : Nat) = 2 ^ n.length := by rw [Nat.shiftLeft_eq, one_mul]
    by_cases hhit : (((state ||| bitapMasks n (h[j] % 256)) <<< 1) % 2 ^ 32) &&& (1 <<< n.length) = 0
    · rw [if_pos hhit]
      rw [hfull, and_two_pow_eq_zero_iff] at hhit
      have hpref := (hstep n.length hm31 hm1 (Nat.le_refl _)).1 hhit
      obtain ⟨hp1, hp2⟩ := hpref
      refine (firstOcc_eq_some_of h n (j + 1 - n.length) ?_ ?_).symm
      · rw [occursAt_iff_pointwise]
        refine ⟨by omega, fun t ht => hp2 t ht⟩
      · intro s hs
        exact hnocc s (by omega)
    · rw [if_neg hhit]
      apply ih (j + 1) _ (by omega) (shiftLeft_mod_testBit_zero _)
      · intro k hk1 hk31 hkm
        exact hstep k hk31 hk1 hkm
      · intro s hs
        rcases Nat.lt_or_ge (s + n.length) (j + 1) with hlt | hge
        · exact hnocc s (by omega)
        · have hse : s = j + 1 - n.length := by omega
          intro hocc
          rw [occursAt_iff_pointwise] at hocc
          obtain ⟨ho1, ho2⟩ := hocc
          have : (((state ||| bitapMasks n (h[j] % 256)) <<< 1) % 2 ^ 32).testBit n.length
              = false := by
            apply (hstep n.length hm31 hm1 (Nat.le_refl _)).2
            refine ⟨by omega, fun t ht => ?_⟩
            have := ho2 t ht
            have e : s + t = j + 1 - n.length + t := by omega
            rw [e] at this
            exact this
          rw [hfull, and_two_pow_eq_zero_iff] at hhit
          exact hhit this

lemma initState_testBit_true (k : Nat) (hk1 : 1 ≤ k) (hk31 : k ≤ 31) :
    ((2 ^ 32 - 2 : Nat)).testBit k = true := by
  obtain ⟨k2, rfl⟩ : ∃ k2, k = k2 + 1 := ⟨k - 1, by omega⟩
  rw [Nat.testBit_succ]
  have e : (2 ^ 32 - 2 : Nat) / 2 = 2 ^ 31 - 1 := by norm_num
  rw [e, Nat.testBit_two_pow_sub_one]
  simp
  omega

lemma bitap_correct (h n : List Nat) (hm31 : n.length ≤ 31)
    (hbh : ∀ b ∈ h, b < 256) (hbn : ∀ b ∈ n, b < 256) :
    searchBitap h n = some (firstOcc h n) := by
  unfold searchBitap
  by_cases h1 : h.length < n.length
  · rw [if_pos h1, firstOcc_eq_none_of_short h n h1]
  · rw [if_neg h1]
    by_cases h2 : n.length = 0
    · have hne : n = [] := List.length_eq_zero.1 h2
      subst hne
      simp [firstOcc_nil_needle]
    · rw [if_neg h2, if_neg (by omega : ¬ 31 < n.length)]
      congr 1
      apply bitapLoop_eq_firstOcc h n (by omega) hm31 hbh hbn h.length 0 (2 ^ 32 - 2)
        (by omega) (by decide)
      · intro k hk1 hk31 hkm
        rw [initState_testBit_true k hk1 hk31]
        constructor
        · intro hfalse; cases hfalse
        · rintro ⟨hcontra, _⟩; omega
      · intro s hs
        have : n.length = 0 := by omega
        omega

/-! ## Line-scan driver lemmas -/

lemma getD_drop (h : List Nat) (c r : Nat) (hcr : c + r < h.length) :
    (h.drop c).getD r 0 = h.getD (c + r) 0 := by
  have h1 : r < (h.drop c).length := by simp; omega
  rw [getD_eq_getElem_zero _ r h1, getD_eq_getElem_zero h _ hcr]
  exact List.getElem_drop h

lemma lineRightAux_spec (h : List Nat) :
    ∀ (d p : Nat), p + d = h.length →
      p ≤ lineRightAux h p d ∧ lineRightAux h p d ≤ h.length ∧
        paddedGet h (lineRightAux h p d) = 10 := by
  intro d
  induction d with
  | zero =>
    intro p hd
    rw [lineRightAux]
    refine ⟨Nat.le_refl _, by omega, ?_⟩
    unfold paddedGet
    rw [if_neg (by omega), if_pos (by omega)]
  | succ d2 ih =>
    intro p hd
    rw [lineRightAux]
    by_cases hb : h.getD p 0 = 10
    · rw [if_pos hb]
      refine ⟨Nat.le_refl _, by omega, ?_⟩
      unfold paddedGet
      rw [if_pos (by omega)]
      exact hb
    · rw [if_neg hb]
      have := ih (p + 1) (by omega)
      exact ⟨by omega, this.2.1, this.2.2⟩

lemma lineRight_spec (h : List Nat) (p : Nat) (hp : p ≤ h.length) :
    p ≤ lineRight h p ∧ lineRight h p ≤ h.length ∧ paddedGet h (lineRight h p) = 10 :=
  lineRightAux_spec h (h.length - p) p (by omega)

lemma lineRight_step (h : List Nat) (p : Nat) (hp : p < h.length) (hb : h.getD p 0 ≠ 10) :
    lineRight h p = lineRight h (p + 1) := by
  unfold lineRight
  obtain ⟨d, hd⟩ : ∃ d, h.length - p = d + 1 := ⟨h.length - p - 1, by omega⟩
  rw [hd, lineRightAux, if_neg hb]
  have e : h.length - (p + 1) = d := by omega
  rw [e]

lemma lineLeftScan_le (h : List Nat) : ∀ p, lineLeftScan h p ≤ p := by
  intro p
  induction p with
  | zero => simp [lineLeftScan]
  | succ p2 ih =>
    rw [lineLeftScan]
    split
    · exact Nat.le_refl _
    · omega

lemma lineLeftScan_ge (h : List Nat) (c : Nat) (hc : paddedGet h c = 10) :
    ∀ p, c ≤ p → c ≤ lineLeftScan h p := by
  intro p
  induction p with
  | zero => intro hcp; simpa [lineLeftScan] using hcp
  | succ p2 ih =>
    intro hcp
    rw [lineLeftScan]
    by_cases hb : paddedGet h (p2 + 1) = 10
    · rw [if_pos hb]; omega
    · rw [if_neg hb]
      rcases Nat.eq_or_lt_of_le hcp with he | hlt
      · exact absurd (he ▸ hc) hb
      · exact ih (by omega)

lemma lineLeft_le (h : List Nat) (p : Nat) (hb : paddedGet h p ≠ 10) : lineLeft h p ≤ p := by
  show (if paddedGet h (lineLeftScan h p) = 10 ∧ lineLeftScan h p ≠ h.length
      then lineLeftScan h p + 1 else lineLeftScan h p) ≤ p
  have hle := lineLeftScan_le h p
  by_cases hcond : paddedGet h (lineLeftScan h p) = 10 ∧ lineLeftScan h p ≠ h.length
  · rw [if_pos hcond]
    have hne : lineLeftScan h p ≠ p := fun he => hb (he ▸ hcond.1)
    omega
  · rw [if_neg hcond]
    exact hle

lemma lineLeft_gt (h : List Nat) (p c : Nat) (hc : paddedGet h c = 10) (hcp : c ≤ p)
    (hp : p < h.length) : c < lineLeft h p := by
  show c < (if paddedGet h (lineLeftScan h p) = 10 ∧ lineLeftScan h p ≠ h.length
      then lineLeftScan h p + 1 else lineLeftScan h p)
  have hge := lineLeftScan_ge h c hc p hcp
  have hle := lineLeftScan_le h p
  by_cases hcond : paddedGet h (lineLeftScan h p) = 10 ∧ lineLeftScan h p ≠ h.length
  · rw [if_pos hcond]; omega
  · rw [if_neg hcond]
    by_cases hlc : lineLeftScan h p = c
    · exact absurd (hlc ▸ ⟨hc, by omega⟩) hcond
    · omega

lemma mygrepAux_spec (search : List Nat → List Nat → Option (Option Nat)) (h n : List Nat)
    (hn : n ≠ []) (hnl : 10 ∉ n)
    (hsound : ∀ hh r, search hh n = some (some r) → occursAt hh n r)
    (htot : ∀ hh, search hh n ≠ none) :
    ∀ (fuel cur : Nat), cur ≤ h.length → h.length + 1 - cur ≤ fuel →
      (mygrepLinesAux search h n cur fuel).2 = true ∧
      mygrepCountAux search h n cur fuel =
        ((mygrepLinesAux search h n cur fuel).1.length, true) ∧
      (mygrepLinesAux search h n cur fuel).1.Pairwise (fun a b => a.2 < b.1 ∧ a.2 < b.2) ∧
      (∀ sp ∈ (mygrepLinesAux search h n cur fuel).1,
        sp.1 ≤ sp.2 ∧ sp.2 ≤ h.length ∧ (paddedGet h cur = 10 → cur < sp.1)) := by
  intro fuel
  induction fuel with
  | zero => intro cur hc hf; omega
  | succ f ih =>
    intro cur hc hf
    cases hsearch : search (h.drop cur) n with
    | none => exact absurd hsearch (htot _)
    | some r =>
      cases r with
      | none =>
        simp only [mygrepLinesAux, mygrepCountAux, hsearch]
        simp
      | some rel =>
        have hocc := hsound _ rel hsearch
        rw [occursAt_iff_pointwise] at hocc
        obtain ⟨ho1, ho2⟩ := hocc
        have hdlen : (h.drop cur).length = h.length - cur := by simp
        rw [hdlen] at ho1
        have hm1 : 1 ≤ n.length := List.length_pos.2 hn
        have hPm : (cur + rel) + n.length ≤ h.length := by omega
        have hPlt : cur + rel < h.length := by omega
        have hbP : h.getD (cur + rel) 0 = n.getD 0 0 := by
          have h0 := ho2 0 (by omega)
          rw [Nat.add_zero] at h0
          rw [← getD_drop h cur rel hPlt]
          exact h0
        have hn0mem : n.getD 0 0 ∈ n := by
          cases n with
          | nil => exact absurd rfl hn
          | cons a tl => simp
        have hbP10 : h.getD (cur + rel) 0 ≠ 10 := by
          rw [hbP]
          intro he
          exact hnl (he ▸ hn0mem)
        have hPpad : paddedGet h (cur + rel) ≠ 10 := by
          unfold paddedGet
          rw [if_pos hPlt]
          exact hbP10
        obtain ⟨hr1, hr2, hr3⟩ := lineRight_spec h (cur + rel) (by omega)
        have hRgt : cur + rel < lineRight h (cur + rel) := by
          rw [lineRight_step h (cur + rel) hPlt hbP10]
          have := (lineRight_spec h (cur + rel + 1) (by omega)).1
          omega
        have hL_le : lineLeft h (cur + rel) ≤ cur + rel := lineLeft_le h _ hPpad
        obtain ⟨ih1, ih2, ih3, ih4⟩ := ih (lineRight h (cur + rel)) hr2 (by omega)
        simp only [mygrepLinesAux, mygrepCountAux, hsearch]
        refine ⟨ih1, ?_, ?_, ?_⟩
        · rw [ih2]
          simp
        · refine List.pairwise_cons.2 ⟨?_, ih3⟩
          intro sp hsp
          have h4 := ih4 sp hsp
          have hlt1 := h4.2.2 hr3
          exact ⟨hlt1, by omega⟩
        · intro sp hsp
          rcases List.mem_cons.1 hsp with rfl | hsp2
          · refine ⟨by omega, hr2, ?_⟩
            intro hcur10
            exact lineLeft_gt h (cur + rel) cur hcur10 (by omega) hPlt
          · have h4 := ih4 sp hsp2
            refine ⟨h4.1, h4.2.1, ?_⟩
            intro hcur10
            have := h4.2.2 hr3
            omega

/-! ## Claim theorems -/

/-- C1.  Cross-algorithm parity fails on the code: on the haystack
`"a\0ab"` (bytes 97,0,97,98) with needle `"ab"`, the reference matcher
`searchSimple` returns offset 2 (and the occurrence is real), but
`searchRabinKarp` returns NULL, because its initial-window loop treats
the NUL byte at haystack[1] as end of data
(`if (!haystack[i]) return NULL;`, search.c line 483). -/
theorem c1_parity_failure_eval :
    searchSimple [97, 0, 97, 98] [97, 98] = some 2 ∧
    occursAt [97, 0, 97, 98] [97, 98] 2 ∧
    searchRabinKarp [97, 0, 97, 98] [97, 98] = some (CResult.ret none) := by
  decide

/-- C2 (counterexample).  The claim "every variant returns a match at
offset 0 on an empty needle, including the empty haystack" fails for
`searchSimpleString`: on the empty haystack its scan loop exits at the
terminator before ever comparing, and it returns NULL. -/
theorem c2_empty_haystack_counterexample :
    searchSimpleString [] [] ≠ some 0 := by decide

/-- C2 (amended).  With needle length 0 every length-based matcher, and
every NUL-terminated variant called with the empty needle, returns a
match at offset 0 for every haystack, with one exception:
`searchSimpleString` returns not-found when the haystack string is empty
(first byte NUL or empty buffer), and offset 0 otherwise. -/
theorem c2_empty_needle_amended :
    (∀ h : List Nat, searchSimple h [] = some 0) ∧
    (∀ h : List Nat, searchNative h [] = some (some 0)) ∧
    (∀ h : List Nat, searchKnuthMorrisPratt h [] = some (some 0)) ∧
    (∀ h : List Nat, searchBoyerMooreHorspool h [] = some (some 0)) ∧
    (∀ h : List Nat, searchBitap h [] = some (some 0)) ∧
    (∀ h : List Nat, searchRabinKarp h [] = some (CResult.ret (some 0))) ∧
    (∀ h : List Nat, searchKnuthMorrisPrattString h [] = some (some 0)) ∧
    (∀ h : List Nat, searchBoyerMooreHorspoolString h [] = some (some 0)) ∧
    (∀ h : List Nat, searchBitapString h [] = some 0) ∧
    (∀ h : List Nat, searchRabinKarpString h [] = some (some 0)) ∧
    (∀ h : List Nat, h.headD 0 ≠ 0 → searchSimpleString h [] = some 0) ∧
    searchSimpleString [] [] = none := by
  refine ⟨?_, ?_, ?_, ?_, ?_, ?_, ?_, ?_, ?_, ?_, ?_, by decide⟩
  · intro h
    unfold searchSimple
    rw [if_neg (by simp)]
    simp only [List.length_nil, Nat.sub_zero]
    rw [simpleLoop]
    simp [simpleCmp]
  · intro h
    simp [searchNative]
  · intro h
    simp [searchKnuthMorrisPratt]
  · intro h
    rw [bmh_main, firstOcc_nil_needle]
  · intro h
    simp [searchBitap]
  · intro h
    simp [searchRabinKarp]
  · intro h
    simp [searchKnuthMorrisPrattString, cstrlen, cstr]
  · intro h
    unfold searchBoyerMooreHorspoolString
    show searchBoyerMooreHorspool (cstr h) [] = some (some 0)
    rw [bmh_main, firstOcc_nil_needle]
  · intro h
    simp [searchBitapString, cstrlen, cstr]
  · intro h
    simp [searchRabinKarpString]
  · intro h hh
    cases h with
    | nil => simp at hh
    | cons b rest =>
      simp only [List.headD_cons] at hh
      unfold searchSimpleString searchSimpleStringAux
      rw [if_neg hh, if_pos (show cstrMatch (b :: rest) [] = true from rfl)]

/-- C2 (witness). -/
theorem c2_empty_needle_witness :
    searchSimple [5] [] = some 0 ∧ searchSimpleString [7] [] = some 0 :=
  ⟨c2_empty_needle_amended.1 [5],
   c2_empty_needle_amended.2.2.2.2.2.2.2.2.2.2.1 [7] (by decide)⟩

/-- C3.  The bounds claim fails on the code: on haystack `"aa"` (length
2) and needle `"ab"` (length 2), `searchRabinKarp` reaches the rolling
update `hashHaystack += *(haystack + needleLength)` on the final window
and reads haystack index 2 = haystackLength; the instrumented embedding
reports the out-of-range read. -/
theorem c3_rabin_karp_oob_eval :
    searchRabinKarp [97, 97] [97, 98] = some CResult.oob := by decide

set_option maxRecDepth 8192 in
/-- C4.  The KMP table-bounds claim fails on the code: for a needle of
length 256 the preprocessing writes failure-table indices 0..256 (257
distinct ints), but the allocation (`kmpTableCapacity`) is only 256 ints
(the local buffer), so the write at index 256 is outside the allocated
capacity.  (For m > 256 the heap block of m ints overflows the same
way.) -/
theorem c4_kmp_table_overflow_eval :
    kmpSkipWrites (List.replicate 256 97) = some (List.range 257) ∧
    256 ∈ List.range 257 ∧
    kmpTableCapacity 256 = 256 ∧ ¬ (256 < kmpTableCapacity 256) := by
  decide

/-- C5.  The NUL dichotomy fails on the code for `searchRabinKarp`: on
haystack `"a\0ab"` with needle `"ab"`, the other length-based matchers
find the occurrence at offset 2 beyond the embedded NUL (and the
NUL-terminated naive variant stops at the NUL, as permitted), but the
length-based `searchRabinKarp` also stops at the NUL and reports
not-found. -/
theorem c5_nul_dichotomy_failure_eval :
    searchKnuthMorrisPratt [97, 0, 97, 98] [97, 98] = some (some 2) ∧
    searchBoyerMooreHorspool [97, 0, 97, 98] [97, 98] = some (some 2) ∧
    searchBitap [97, 0, 97, 98] [97, 98] = some (some 2) ∧
    searchNative [97, 0, 97, 98] [97, 98] = some (some 2) ∧
    searchSimpleString [97, 0, 97, 98] [97, 98] = none ∧
    searchRabinKarp [97, 0, 97, 98] [97, 98] = some (CResult.ret none) := by
  decide

/-- C6 (counterexample).  The skip table is not "distance from the
rightmost occurrence in the needle": for needle `"aa"` the rightmost
occurrence of byte 97 is the last position (distance 0), but the code
stores 1, because the construction loop stops before the last
position. -/
theorem c6_skip_table_counterexample :
    bmhSkip [97, 97] 97 = 1 ∧ bmhSkipClaim [97, 97] 97 = 0 ∧
    bmhSkip [97, 97] 97 ≠ bmhSkipClaim [97, 97] 97 := by decide

/-- C6 (amended).  For every non-empty needle (of byte values < 256),
the 256-entry table maps each byte value to the distance from its
rightmost occurrence among the first needleLength - 1 needle positions
to the needle's last position, with default needleLength for bytes
absent from those positions; and the search (right-to-left window
comparison, advancing on mismatch by the table entry of the haystack
byte aligned with the needle's last position) returns exactly the first
occurrence. -/
theorem c6_bmh_amended (h n : List Nat) (hn : n ≠ []) (hb : ∀ b ∈ n, b < 256) :
    (∀ c, c < 256 → bmhSkip n c = bmhSkipSpec n c) ∧
    searchBoyerMooreHorspool h n = some (firstOcc h n) :=
  ⟨fun c hc => bmhSkip_eq_spec n hb c hc, bmh_main h n⟩

/-- C6 (witness). -/
theorem c6_bmh_witness :
    bmhSkip [97, 98] 97 = bmhSkipSpec [97, 98] 97 ∧
    searchBoyerMooreHorspool [97, 0, 97, 98] [97, 98] =
      some (firstOcc [97, 0, 97, 98] [97, 98]) :=
  ⟨(c6_bmh_amended [97, 98] [97, 98] (by decide) (by decide)).1 97 (by decide),
   (c6_bmh_amended [97, 0, 97, 98] [97, 98] (by decide) (by decide)).2⟩

/-- C7.  Bitap restriction and delegation: needles longer than
`8 * sizeof(int) - 1 = 31` delegate, with no error signalled, to
`searchNative` (length-based variant) and to `searchSimpleString`
(NUL-terminated variant); and for every needle within the limit the
shift-or state machine reports exactly the true first occurrence (no
false positives). -/
theorem c7_bitap_theorem :
    (∀ h n : List Nat, 31 < n.length → searchBitap h n = searchNative h n) ∧
    (∀ h n : List Nat, 31 < cstrlen n → searchBitapString h n = searchSimpleString h n) ∧
    (∀ h n : List Nat, n.length ≤ 31 → (∀ b ∈ h, b < 256) → (∀ b ∈ n, b < 256) →
      searchBitap h n = some (firstOcc h n)) := by
  refine ⟨?_, ?_, ?_⟩
  · intro h n hm
    unfold searchBitap
    by_cases h1 : h.length < n.length
    · rw [if_pos h1]
      unfold searchNative
      rw [if_pos h1]
    · rw [if_neg h1, if_neg (by omega), if_pos hm]
  · intro h n hm
    unfold searchBitapString
    rw [if_neg (by omega), if_pos hm]
  · intro h n hm hbh hbn
    exact bitap_correct h n hm hbh hbn

/-- C7 (witness). -/
theorem c7_bitap_witness :
    searchBitap (List.replicate 33 97) (List.replicate 32 97) =
      searchNative (List.replicate 33 97) (List.replicate 32 97) ∧
    searchBitapString [97] (List.replicate 32 97) =
      searchSimpleString [97] (List.replicate 32 97) ∧
    searchBitap [98, 97] [97] = some (firstOcc [98, 97] [97]) :=
  ⟨c7_bitap_theorem.1 _ _ (by decide),
   c7_bitap_theorem.2.1 _ _ (by decide),
   c7_bitap_theorem.2.2 [98, 97] [97] (by decide) (by decide) (by decide)⟩

/-- C8 (counterexample).  The uniqueness claim fails as stated "for
every needle": with needle `"\n"` (byte 10) on haystack `"a\nb"`, the
driver's cursor is set to the right boundary, which is the newline
itself, and the matcher finds the same position again; the run emits the
same line span forever (here: the fuel-bounded prefix of the diverging
run, using the default matcher for a 1-byte needle, `searchNative`). -/
theorem c8_newline_needle_counterexample :
    (mygrepLines searchNative [97, 10, 98] [10]).1 =
      [(2, 1), (2, 1), (2, 1), (2, 1), (2, 1)] ∧
    ¬ (mygrepLines searchNative [97, 10, 98] [10]).1.Nodup := by decide

/-- C8 (amended).  For every needle that is non-empty and contains no
newline byte, and every matcher that is sound (returns only true
occurrences) and total, the full-mode driver run terminates, never emits
a line span twice (the spans are strictly increasing and hence nodup),
and the count-only driver counts exactly one hit per emitted line. -/
theorem c8_line_scan_amended (search : List Nat → List Nat → Option (Option Nat))
    (n : List Nat) (hn : n ≠ []) (hnl : 10 ∉ n)
    (hsound : ∀ hh r, search hh n = some (some r) → occursAt hh n r)
    (htot : ∀ hh, search hh n ≠ none) (h : List Nat) :
    (mygrepLines search h n).2 = true ∧
    (mygrepLines search h n).1.Nodup ∧
    (mygrepLines search h n).1.Pairwise (fun a b => a.2 < b.1 ∧ a.2 < b.2) ∧
    mygrepCount search h n = ((mygrepLines search h n).1.length, true) := by
  obtain ⟨h1, h2, h3, h4⟩ := mygrepAux_spec search h n hn hnl hsound htot (h.length + 2) 0
    (by omega) (by omega)
  have hne : ∀ (a b : Nat × Nat), (a.2 < b.1 ∧ a.2 < b.2) → a ≠ b := by
    rintro a b ⟨h5, h6⟩ rfl
    omega
  exact ⟨h1, List.Pairwise.imp (fun hab => hne _ _ hab) h3, h3, h2⟩

/-- C8 (witness): two single-occurrence lines, searched with the
reference matcher. -/
theorem c8_line_scan_witness :
    (mygrepLines (fun a b => some (searchSimple a b)) [110, 10, 110] [110]).2 = true ∧
    (mygrepLines (fun a b => some (searchSimple a b)) [110, 10, 110] [110]).1.Nodup ∧
    (mygrepLines (fun a b => some (searchSimple a b)) [110, 10, 110] [110]).1.Pairwise
      (fun a b => a.2 < b.1 ∧ a.2 < b.2) ∧
    mygrepCount (fun a b => some (searchSimple a b)) [110, 10, 110] [110] =
      ((mygrepLines (fun a b => some (searchSimple a b)) [110, 10, 110] [110]).1.length,
        true) :=
  c8_line_scan_amended (fun a b => some (searchSimple a b)) [110] (by decide) (by decide)
    (fun hh r hr => searchSimple_sound hh [110] r (by injection hr))
    (fun hh => by simp) [110, 10, 110]

/-- C9.  Line-scan scenario on `"foo\nbar needle baz\nqux"` with needle
`"needle"` (the driver's default algorithm for a 6-byte needle is
`searchNative`): count-only mode reports exactly 1 hit, and full mode
emits exactly one line span, `[4, 18)`, whose bytes are
`"bar needle baz"`. -/
theorem c9_line_scan_scenario :
    mygrepCount searchNative
      [102, 111, 111, 10, 98, 97, 114, 32, 110, 101, 101, 100, 108, 101, 32, 98, 97, 122,
        10, 113, 117, 120]
      [110, 101, 101, 100, 108, 101] = (1, true) ∧
    mygrepLines searchNative
      [102, 111, 111, 10, 98, 97, 114, 32, 110, 101, 101, 100, 108, 101, 32, 98, 97, 122,
        10, 113, 117, 120]
      [110, 101, 101, 100, 108, 101] = ([(4, 18)], true) ∧
    ([102, 111, 111, 10, 98, 97, 114, 32, 110, 101, 101, 100, 108, 101, 32, 98, 97, 122,
        10, 113, 117, 120].drop 4).take (18 - 4) =
      [98, 97, 114, 32, 110, 101, 101, 100, 108, 101, 32, 98, 97, 122] := by
  decide

/-- C10.  For every non-empty needle, every entry of the Horspool skip
table lies in [1, needleLength]; hence each loop iteration strictly
decreases the remaining length and the search terminates: the fuel given
to the embedding's loop (haystackLength + 1) is never exhausted and
`searchBoyerMooreHorspool` always returns a value. -/
theorem c10_bmh_termination (h n : List Nat) (hn : n ≠ []) (hlen : n.length ≤ h.length) :
    (∀ c, 1 ≤ bmhSkip n c ∧ bmhSkip n c ≤ n.length) ∧
    (searchBoyerMooreHorspool h n).isSome := by
  refine ⟨fun c => bmhSkip_bounds n hn c, ?_⟩
  rw [bmh_main]
  rfl

/-- C10 (witness). -/
theorem c10_bmh_termination_witness :
    (1 ≤ bmhSkip [97, 98] 0 ∧ bmhSkip [97, 98] 0 ≤ 2) ∧
    (searchBoyerMooreHorspool [97, 98, 99] [97, 98]).isSome :=
  ⟨(c10_bmh_termination [97, 98, 99] [97, 98] (by decide) (by decide)).1 0,
   (c10_bmh_termination [97, 98, 99] [97, 98] (by decide) (by decide)).2⟩
